import Mathlib

/-!
Verification of the reshape-and-summarize pipeline of `src/models/preprocess.py`.

The pipeline's tables are embedded shallowly:

* a generic pandas frame is a `Table`: a list of column names plus rows of
  heterogeneous `Cell`s (string / number / null); numbers are modelled by `ℚ`
  (the Python floats of the data are decimal literals, and no claim depends on
  float rounding);
* the cleaned indicator table handed to `reindex_by_country_indicator` is a
  `WideTable` (two identity columns plus year columns);
* the long form is a `List LongRow`, the summary a `List SummaryRow`;
* a fallible stage (a pandas call that can raise `KeyError` / `AttributeError`
  / `IndexError` / `AssertionError`) returns `Except String _` or `Option _`,
  `.error` / `none` standing for the raised exception aborting the pipeline;
* `np.nan` stored in a numeric cell is `none : Option ℚ` — pandas treats NaN
  as null.

Library calls (`Series.interpolate`, `DataFrame.melt`, `groupby`, `pivot`,
`fillna`) are embedded by definitions that follow the documented pandas
semantics of the exact call made by the source, noted at each definition.
-/

namespace CovidPreprocess

/-! ## Growth rate (`summarize.calculate_growth_rate`, preprocess.py:171-191)

The Python function receives one group's VALUE series, resets its index to
`0..len-1`, and computes
```
idx = np.isfinite(series)
if not any(idx): return np.nan
x = series.loc[idx].index ; y = series.loc[idx]
n = x[-1]
assert n > 0
return (y[-1] / y[0]) ** (1 / n) - 1
```
`finitePositionsFrom s k` lists the indices (offset by `k`) of the non-null
entries of `s`, so `finitePositions s` is `x` and `finiteValues s` is `y`.
-/

/-- Indices of the non-null entries of `s`, counting from `k`. -/
def finitePositionsFrom (s : List (Option ℚ)) (k : ℕ) : List ℕ :=
  match s with
  | [] => []
  | none :: t => finitePositionsFrom t (k + 1)
  | some _ :: t => k :: finitePositionsFrom t (k + 1)

/-- Embeds `x = series.loc[idx].index` after `reset_index(drop=True)`:
positions of the finite entries. -/
def finitePositions (s : List (Option ℚ)) : List ℕ :=
  finitePositionsFrom s 0

/-- Embeds `y = series.loc[idx]`: the finite entries themselves, in order. -/
def finiteValues (s : List (Option ℚ)) : List ℚ :=
  s.filterMap id

/-- Outcome of `calculate_growth_rate` on one group's VALUE series.
`nan` is the `return np.nan` branch (a null GROWTH_RATE cell), `assertFail`
is the `assert n > 0` failing (an `AssertionError` aborting the pipeline),
and `rate y0 yn n` records the data of the returned float
`(yn / y0) ** (1 / n) - 1` (its real value is `GrowthResult.value`). -/
inductive GrowthResult where
  | nan : GrowthResult
  | assertFail : GrowthResult
  | rate (y0 yn : ℚ) (n : ℕ) : GrowthResult
  deriving DecidableEq, Repr

/-- Model of `calculate_growth_rate` of preprocess.py:171-191 (see module comment). -/
def calculate_growth_rate (s : List (Option ℚ)) : GrowthResult :=
  match (finitePositions s).getLast?, (finiteValues s).head?,
      (finiteValues s).getLast? with
  | some n, some y0, some yn => if 0 < n then .rate y0 yn n else .assertFail
  | _, _, _ => .nan

/-- The float produced by the `rate` branch: `(yn / y0) ** (1 / n) - 1`,
with `**` read as `Real.rpow` (they agree whenever the base is nonnegative;
on a negative base numpy yields NaN, a case the spec leaves undefined).
`nan` has no value; `assertFail` never returns one. -/
noncomputable def GrowthResult.value : GrowthResult → Option ℝ
  | .rate y0 yn n => some (((yn : ℝ) / (y0 : ℝ)) ^ (((n : ℕ) : ℝ))⁻¹ - 1)
  | _ => none

/-! ## Generic tables and the header/cleaning stages -/

/-- One cell of a pandas frame: a string, a float (modelled by `ℚ`), or
null/NaN. -/
inductive Cell where
  | null : Cell
  | str (s : String) : Cell
  | num (q : ℚ) : Cell
  deriving DecidableEq, Repr

/-- A pandas frame: column names plus rows of cells, `rows[i][j]` belonging
to column `cols[j]`. -/
structure Table where
  cols : List String
  rows : List (List Cell)
  deriving DecidableEq, Repr

/-- Embeds `c.split("/")[0]`: the part of the header before the first `/`. -/
def slashTrunc (s : String) : String :=
  String.mk (s.data.takeWhile (fun c => c ≠ '/'))

/-- Embeds `c.replace(" ", "_")` on one character. -/
def usChar (c : Char) : Char :=
  if c = ' ' then '_' else c

/-- Embeds `c.replace(" ", "_")`. -/
def underscoreSpaces (s : String) : String :=
  String.mk (s.data.map usChar)

/-- Embeds `str.upper` on one character; the repository's headers are ASCII, so the
ASCII case map (codepoint minus 32 on `a`-`z`) is the behaviour exercised. -/
def upperChar (c : Char) : Char :=
  if h : 'a' ≤ c ∧ c ≤ 'z' then
    Char.ofNatAux (c.toNat - 32)
      (Or.inl (by
        have h2 : c.toNat ≤ 122 := h.2
        omega))
  else c

/-- Embeds `c.upper()`. -/
def upperString (s : String) : String :=
  String.mk (s.data.map upperChar)

/-- Model of `format_columns` of preprocess.py:129-136: three successive
`df.rename(columns=...)` calls — truncate each header at the first `/`,
replace spaces by underscores, uppercase. `rename` builds a new frame and
only relabels columns, so the rows are untouched. -/
def format_columns (t : Table) : Table :=
  let t1 := { t with cols := t.cols.map slashTrunc }
  let t2 := { t1 with cols := t1.cols.map underscoreSpaces }
  { t2 with cols := t2.cols.map upperString }

/-- The columns `clean_data` drops. -/
def cleanDropNames : List String :=
  ["INDICATOR_CODE", "COUNTRY_CODE", "UNNAMED:_63"]

/-- Python `lst[-years:]`: the last `years` elements — except that `-0`
slices from the start, giving the whole list. -/
def pyTail {α : Type} (l : List α) (years : ℕ) : List α :=
  if years = 0 then l else l.drop (l.length - years)

/-- Drop the named columns from one row (cells are matched to names by
position). -/
def dropRowCells (cols : List String) (r : List Cell) : List Cell :=
  ((cols.zip r).filter (fun p => p.1 ∉ cleanDropNames)).map Prod.snd

/-- Embeds `df.replace({"United States": "US"})` on one cell: a cell equal to the
string `"United States"` becomes `"US"`, every other cell is unchanged. -/
def replaceUS : Cell → Cell
  | Cell.str s => if s = "United States" then Cell.str "US" else Cell.str s
  | c => c

/-- Model of `clean_data` of preprocess.py:139-145: drop the three metadata columns
(`df.drop` raises `KeyError`, modelled by `.error`, when one is absent —
its default is `errors="raise"`); keep the first 2 columns plus the last
`years` columns (`pd.concat([df.iloc[:, :2], df.iloc[:, -years:]], axis=1)`,
duplicating columns when the slices overlap); drop rows that are null in
every retained column after the first two (`dropna(subset=df.columns[2:],
how="all")`); apply the `United States → US` alias to every cell. -/
def clean_data (t : Table) (years : ℕ) : Except String Table :=
  if "INDICATOR_CODE" ∈ t.cols ∧ "COUNTRY_CODE" ∈ t.cols ∧ "UNNAMED:_63" ∈ t.cols then
    let cols1 := t.cols.filter (fun c => c ∉ cleanDropNames)
    let rows1 := t.rows.map (dropRowCells t.cols)
    let cols2 := cols1.take 2 ++ pyTail cols1 years
    let rows2 := rows1.map (fun r => r.take 2 ++ pyTail r years)
    let rows3 := rows2.filter (fun r => ¬ (r.drop 2).all (fun c => c = Cell.null))
    Except.ok { cols := cols2, rows := rows3.map (fun r => r.map replaceUS) }
  else
    Except.error "KeyError"

/-- Index of a named column. -/
def colIndex (t : Table) (name : String) : Option ℕ :=
  t.cols.findIdx? (fun c => c = name)

/-- The cells of column `j`, top to bottom. -/
def columnCells (t : Table) (j : ℕ) : List Cell :=
  t.rows.map (fun r => r.getD j Cell.null)

/-- Model of `keep_relevant_countries` of preprocess.py:148-151:
`df.loc[df.COUNTRY_NAME.isin(corona_df.COUNTRY), :]`. Attribute access on a
missing column raises (modelled by `.error`); otherwise keep the rows whose
`COUNTRY_NAME` cell occurs in the corona frame's `COUNTRY` column. -/
def keep_relevant_countries (df corona : Table) : Except String Table :=
  match colIndex df "COUNTRY_NAME", colIndex corona "COUNTRY" with
  | some ci, some cj =>
    Except.ok { df with
      rows := df.rows.filter (fun r => r.getD ci Cell.null ∈ columnCells corona cj) }
  | _, _ => Except.error "AttributeError"

/-! ## Wide-to-long reshaping (`reindex_by_country_indicator`, 154-157) -/

/-- One row of the cleaned wide indicator table: the two identity columns
plus the year-column cells. -/
structure WideRow where
  country : String
  indicator : String
  values : List (Option ℚ)
  deriving DecidableEq, Repr

/-- The cleaned wide table: year-column labels plus rows. -/
structure WideTable where
  yearCols : List String
  rows : List WideRow
  deriving DecidableEq, Repr

/-- One row of the long form: columns COUNTRY_NAME, INDICATOR_NAME, YEAR,
VALUE. The YEAR cell is the calendar year parsed from the column label. -/
structure LongRow where
  country : String
  indicator : String
  year : Int
  value : Option ℚ
  deriving DecidableEq, Repr

/-- The `(COUNTRY_NAME, INDICATOR_NAME)` grouping key. -/
def rowKey (r : LongRow) : String × String :=
  (r.country, r.indicator)

/-- Embeds `astype("datetime64[Y]")` on one year label: parse the label as a
calendar year (a non-empty string of decimal digits), failing — an
exception — on a non-year-like label. -/
def parseYearLabel (s : String) : Option Int :=
  if s.data ≠ [] ∧ s.data.all Char.isDigit then
    some ((s.data.foldl (fun n c => n * 10 + (c.toNat - 48)) 0 : ℕ) : ℤ)
  else none

/-- Model of `reindex_by_country_indicator` of preprocess.py:154-157:
`df.melt(id_vars=["COUNTRY_NAME","INDICATOR_NAME"], var_name="YEAR",
value_name="VALUE")` followed by parsing the YEAR labels. `melt` emits the
year columns one after the other (column-major), each contributing one row
per input row; an unparseable label makes `astype` raise (`.error`). -/
def reindex_by_country_indicator (w : WideTable) : Except String (List LongRow) :=
  match w.yearCols.mapM parseYearLabel with
  | none => Except.error "unparseable year label"
  | some ys =>
    Except.ok ((ys.enum.map (fun p =>
      w.rows.map (fun r =>
        LongRow.mk r.country r.indicator p.2 (r.values.getD p.1 none)))).flatten)

/-! ## Interpolation (`interpolate_values`, preprocess.py:160-164)

`s.interpolate(method="linear")` (no `limit`/`limit_direction`/`limit_area`
arguments) treats the values as equally spaced, ignoring the index, and with
the default forward fill direction:

* a non-null entry is unchanged;
* a null entry with finite entries on both sides is filled linearly between
  its nearest finite neighbours;
* a null entry after the last finite entry is filled with that last finite
  value (pandas pads forward past the last observation);
* a null entry before the first finite entry stays null.
-/

/-- The nearest finite entry strictly before position `i` (position and
value), if any. -/
def prevFinite (s : List (Option ℚ)) : ℕ → Option (ℕ × ℚ)
  | 0 => none
  | j + 1 =>
    match s.getD j none with
    | some v => some (j, v)
    | none => prevFinite s j

/-- First finite entry of `l`, reported at offset `k`. -/
def nextFiniteAux (l : List (Option ℚ)) (k : ℕ) : Option (ℕ × ℚ) :=
  match l with
  | [] => none
  | some v :: _ => some (k, v)
  | none :: t => nextFiniteAux t (k + 1)

/-- The nearest finite entry strictly after position `i` (position and
value), if any. -/
def nextFinite (s : List (Option ℚ)) (i : ℕ) : Option (ℕ × ℚ) :=
  nextFiniteAux (s.drop (i + 1)) (i + 1)

/-- The interpolated value at position `i` of the series `s` (see the
section comment for the pandas semantics being embedded). -/
def interpAt (s : List (Option ℚ)) (i : ℕ) : Option ℚ :=
  match s.getD i none with
  | some v => some v
  | none =>
    match prevFinite s i with
    | none => none
    | some pv =>
      match nextFinite s i with
      | none => some pv.2
      | some qv =>
        some (pv.2 + (qv.2 - pv.2) * (((i : ℚ) - (pv.1 : ℚ)) / ((qv.1 : ℚ) - (pv.1 : ℚ))))

/-- Embeds `s.interpolate(method="linear")` on one group's VALUE series. -/
def interpSeries (s : List (Option ℚ)) : List (Option ℚ) :=
  (List.range s.length).map (interpAt s)

/-- Model of `interpolate_values` of preprocess.py:160-164: the VALUE series of each
`(COUNTRY_NAME, INDICATOR_NAME)` group (rows in table order) is interpolated
and written back to the rows of that group. Each row `i` receives the
interpolated value at its position within its group. NOTE: in the source
this is `df["VALUE"] = ...; return df` — an in-place column assignment on
the caller's frame (see `interpolate_values_inputAfter`). -/
def interpolate_values (t : List LongRow) : List LongRow :=
  t.enum.map (fun p =>
    let grpVals := (t.filter (fun r2 => rowKey r2 = rowKey p.2)).map LongRow.value
    let pos := ((t.take p.1).filter (fun r2 => rowKey r2 = rowKey p.2)).length
    { p.2 with value := (interpSeries grpVals).getD pos none })

/-! ## Summarizer (`summarize`, preprocess.py:167-202) -/

/-- Model of `get_latest_value` of preprocess.py:168-169:
`series[series.notnull()].values[~0]` — the last non-null entry; on a series
with no non-null entry the `[-1]` index into an empty array raises
`IndexError`, modelled by `none`. -/
def get_latest_value {α : Type} (s : List (Option α)) : Option α :=
  (s.filterMap id).getLast?

/-- Pandas `"mean"` aggregation: arithmetic mean of the non-null entries;
NaN (null) when there are none. -/
def seriesMean (vals : List (Option ℚ)) : Option ℚ :=
  match vals.filterMap id with
  | [] => none
  | _ :: _ => some ((vals.filterMap id).sum / ((vals.filterMap id).length : ℚ))

/-- One row of the summary table. `growth_rate = none` is a null (NaN)
GROWTH_RATE cell; `growth_rate = some (y0, yn, n)` records the data of the
float `(yn / y0) ** (1 / n) - 1` (cf. `GrowthResult.value`). -/
structure SummaryRow where
  country : String
  indicator : String
  current_year : Int
  current_value : ℚ
  average_value : Option ℚ
  growth_rate : Option (ℚ × ℚ × ℕ)
  deriving DecidableEq, Repr

/-- The aggregation of one `(COUNTRY_NAME, INDICATOR_NAME)` group: the four
`agg` columns of preprocess.py:195-200. `none` is an exception raised while
aggregating the group (`IndexError` from `get_latest_value`, or the
`AssertionError` from `calculate_growth_rate`), which aborts `summarize`. -/
def summarizeGroup (c ind : String) (years : List Int) (vals : List (Option ℚ)) :
    Option SummaryRow := do
  let cy ← get_latest_value (years.map some)
  let cv ← get_latest_value vals
  let gr ← match calculate_growth_rate vals with
    | GrowthResult.assertFail => none
    | GrowthResult.nan => some none
    | GrowthResult.rate y0 yn n => some (some (y0, yn, n))
  some (SummaryRow.mk c ind cy cv (seriesMean vals) gr)

/-- Append a key if it is not already present. -/
def insertKey (ks : List (String × String)) (k : String × String) :
    List (String × String) :=
  if k ∈ ks then ks else ks ++ [k]

/-- The distinct `(COUNTRY_NAME, INDICATOR_NAME)` keys, in order of first
appearance (pandas sorts the groups; no claim depends on the group order). -/
def groupKeys (t : List LongRow) : List (String × String) :=
  t.foldl (fun ks r => insertKey ks (rowKey r)) []

/-- Aggregate the listed groups of `t` in order; `none` as soon as one
group's aggregation raises. -/
def summarizeKeys (t : List LongRow) : List (String × String) → Option (List SummaryRow)
  | [] => some []
  | k :: ks =>
    let g := t.filter (fun r => rowKey r = k)
    match summarizeGroup k.1 k.2 (g.map LongRow.year) (g.map LongRow.value),
        summarizeKeys t ks with
    | some row, some rest => some (row :: rest)
    | _, _ => none

/-- Model of `summarize` of preprocess.py:167-202: one `SummaryRow` per
`(COUNTRY_NAME, INDICATOR_NAME)` group (`groupby` keeps the rows of a group
in table order); `none` when aggregating any group raises. -/
def summarize (t : List LongRow) : Option (List SummaryRow) :=
  summarizeKeys t (groupKeys t)

/-! ## Pivot and fill (`pivot_by_indicator` 205-210,
`fill_missing_indicators` 213-214) -/

/-- The pivoted analytical table: rows indexed by country, one column per
indicator under each of the three metric blocks GROWTH_RATE, CURRENT_VALUE,
AVERAGE_VALUE. Cells are floats (`ℝ`); a `(country, indicator)` pair absent
from the summary, or a null summary cell, gives a null (NaN) cell. -/
structure PivotedTable where
  indicators : List String
  countries : List String
  growth : List (List (Option ℝ))
  current : List (List (Option ℝ))
  average : List (List (Option ℝ))

/-- Model of `pivot_by_indicator` of preprocess.py:205-210: `df.pivot(index=
"COUNTRY_NAME", columns="INDICATOR_NAME", values=["GROWTH_RATE",
"CURRENT_VALUE", "AVERAGE_VALUE"])`. (Pandas sorts the index and columns;
the claims do not depend on that order, so first-appearance order is used.) -/
noncomputable def pivot_by_indicator (t : List SummaryRow) : PivotedTable :=
  let inds := (t.map SummaryRow.indicator).dedup
  let cs := (t.map SummaryRow.country).dedup
  let cell := fun (c ind : String) => t.find? (fun r => r.country = c ∧ r.indicator = ind)
  { indicators := inds
    countries := cs
    growth := cs.map (fun c => inds.map (fun ind =>
      (cell c ind).bind (fun r => r.growth_rate.bind (fun g =>
        (GrowthResult.rate g.1 g.2.1 g.2.2).value))))
    current := cs.map (fun c => inds.map (fun ind =>
      (cell c ind).map (fun r => (r.current_value : ℝ))))
    average := cs.map (fun c => inds.map (fun ind =>
      (cell c ind).bind (fun r => r.average_value.map (fun q => (q : ℝ))))) }

/-- Embeds `df.mean()` for column `j`: the mean of the column's non-null cells,
null when the column has none. Stated over any field so that concrete
witnesses can be computed in `ℚ`; the pipeline instance is `α = ℝ`. -/
def colMean {α : Type} [Field α] (rows : List (List (Option α))) (j : ℕ) : Option α :=
  match rows.filterMap (fun r => r.getD j none) with
  | [] => none
  | fs => some (fs.sum / (fs.length : α))

/-- One cell of `df.fillna(df.mean())`: a non-null cell is kept, a null
cell in column `j` receives `df.mean()[j]` — and stays null when that mean
is itself NaN (`fillna` skips NaN fill values). -/
def fillCell {α : Type} [Field α] (rows : List (List (Option α)))
    (p : ℕ × Option α) : Option α :=
  match p.2 with
  | some x => some x
  | none => colMean rows p.1

/-- Model of `fill_missing_indicators` of preprocess.py:213-214:
`df.fillna(df.mean())` — every null cell is replaced by its column's mean
over the non-null cells; a column with no non-null cell has a NaN mean, and
`fillna` skips NaN fill values, so such a column stays entirely null. -/
def fill_missing_indicators {α : Type} [Field α] (rows : List (List (Option α))) :
    List (List (Option α)) :=
  rows.map (fun r => r.enum.map (fillCell rows))

/-! ## Caller-visible state of each stage's input after the call

Every pandas call used by the stages (`rename`, `drop`, `pipe`, `dropna`,
`replace`, `loc`, `melt`, `assign`, `groupby(...).agg`, `reset_index`,
`pivot`, `fillna` — all with their defaults) returns a new frame, so those
stages leave the frame passed to them unchanged: their `_inputAfter` is the
identity. The one exception is `interpolate_values`, whose body
`df["VALUE"] = ...; return df` assigns a column **in place** on the caller's
frame and returns that same frame: after the call the caller's table equals
the returned table. -/

def format_columns_inputAfter (t : Table) : Table := t

def clean_data_inputAfter (t : Table) (_years : ℕ) : Table := t

def keep_relevant_countries_inputAfter (df corona : Table) : Table × Table :=
  (df, corona)

def reindex_by_country_indicator_inputAfter (w : WideTable) : WideTable := w

/-- Because the source runs `df["VALUE"] = ...; return df`, the caller's frame after the call holds
the interpolated table. -/
def interpolate_values_inputAfter (t : List LongRow) : List LongRow :=
  interpolate_values t

def summarize_inputAfter (t : List LongRow) : List LongRow := t

def pivot_by_indicator_inputAfter (t : List SummaryRow) : List SummaryRow := t

def fill_missing_indicators_inputAfter {α : Type} [Field α]
    (rows : List (List (Option α))) : List (List (Option α)) := rows

/-! Basic facts about `finitePositionsFrom`. -/

theorem finitePositionsFrom_nil (k : ℕ) : finitePositionsFrom [] k = [] := rfl

theorem finitePositionsFrom_length_le (s : List (Option ℚ)) (k : ℕ) :
    (finitePositionsFrom s k).length ≤ s.length := by
  induction s generalizing k with
  | nil => simp [finitePositionsFrom]
  | cons hd t ih =>
    cases hd with
    | none => simpa [finitePositionsFrom] using Nat.le_succ_of_le (ih (k + 1))
    | some v => simpa [finitePositionsFrom] using ih (k + 1)

theorem finitePositionsFrom_eq_nil (s : List (Option ℚ)) (k : ℕ)
    (h : ∀ v ∈ s, v = none) : finitePositionsFrom s k = [] := by
  induction s generalizing k with
  | nil => rfl
  | cons hd t ih =>
    cases hd with
    | none =>
      simpa [finitePositionsFrom] using ih (k + 1) (fun v hv => h v (by simp [hv]))
    | some v => exact absurd (h (some v) (by simp)) (by simp)

theorem finitePositionsFrom_ne_nil (s : List (Option ℚ)) (k : ℕ)
    (h : ∃ v ∈ s, v ≠ none) : finitePositionsFrom s k ≠ [] := by
  induction s generalizing k with
  | nil => rcases h with ⟨v, hv, _⟩; exact absurd hv (by simp)
  | cons hd t ih =>
    cases hd with
    | none =>
      rcases h with ⟨v, hv, hvne⟩
      rcases List.mem_cons.mp hv with h1 | h1
      · exact absurd h1 hvne
      · simpa [finitePositionsFrom] using ih (k + 1) ⟨v, h1, hvne⟩
    | some v => simp [finitePositionsFrom]

/-- Every position produced from offset `k` is at least `k`. -/
theorem finitePositionsFrom_le (s : List (Option ℚ)) (k : ℕ) :
    ∀ p ∈ finitePositionsFrom s k, k ≤ p := by
  induction s generalizing k with
  | nil => intro p hp; simp [finitePositionsFrom] at hp
  | cons hd t ih =>
    intro p hp
    cases hd with
    | none =>
      have := ih (k + 1) p (by simpa [finitePositionsFrom] using hp)
      omega
    | some v =>
      rcases List.mem_cons.mp (by simpa [finitePositionsFrom] using hp) with h1 | h1
      · omega
      · have := ih (k + 1) p h1
        omega

/-- The last produced position is at least `k + length - 1` (stated without
truncated subtraction): the positions are strictly increasing, so with `m`
of them the last one is at least `m - 1` above the offset. -/
theorem finitePositionsFrom_getLast_ge (s : List (Option ℚ)) (k : ℕ)
    (h : finitePositionsFrom s k ≠ []) :
    ∀ p, (finitePositionsFrom s k).getLast? = some p →
      k + (finitePositionsFrom s k).length ≤ p + 1 := by
  induction s generalizing k with
  | nil => simp [finitePositionsFrom] at h
  | cons hd t ih =>
    intro p hp
    cases hd with
    | none =>
      have h' : finitePositionsFrom t (k + 1) ≠ [] := by
        simpa [finitePositionsFrom] using h
      have := ih (k + 1) h' p (by simpa [finitePositionsFrom] using hp)
      simp only [finitePositionsFrom]
      omega
    | some v =>
      by_cases ht : finitePositionsFrom t (k + 1) = []
      · simp only [finitePositionsFrom, ht] at hp ⊢
        simp at hp
        simp only [List.length_cons, List.length_nil]
        omega
      · have hlast : (k :: finitePositionsFrom t (k + 1)).getLast? =
            (finitePositionsFrom t (k + 1)).getLast? := by
          rcases List.exists_cons_of_ne_nil ht with ⟨a, l, hl⟩
          simp [hl]
        have hp' : (finitePositionsFrom t (k + 1)).getLast? = some p := by
          simp only [finitePositionsFrom] at hp
          rw [hlast] at hp
          exact hp
        have := ih (k + 1) ht p hp'
        simp only [finitePositionsFrom]
        simp only [List.length_cons]
        omega

theorem finitePositionsFrom_length (s : List (Option ℚ)) (k : ℕ) :
    (finitePositionsFrom s k).length = (s.filterMap id).length := by
  induction s generalizing k with
  | nil => rfl
  | cons hd t ih =>
    cases hd with
    | none => simpa [finitePositionsFrom] using ih (k + 1)
    | some v => simpa [finitePositionsFrom] using ih (k + 1)

theorem finitePositions_length (s : List (Option ℚ)) :
    (finitePositions s).length = (finiteValues s).length :=
  finitePositionsFrom_length s 0

/-! ## Claims C2-C4: the growth-rate computation -/

/-- Claim C2, amended. The GROWTH_RATE produced by `calculate_growth_rate` is
null (NaN) exactly when the group has **no** finite observation; "fewer than
2" is wrong: a single finite observation at a position `k > 0` produces the
non-null rate `(v / v) ** (1 / k) - 1 = 0`, and at position `0` it raises
the assertion instead of returning null. -/
theorem growth_rate_null_iff_no_finite (s : List (Option ℚ)) :
    calculate_growth_rate s = GrowthResult.nan ↔ ∀ v ∈ s, v = none := by
  constructor
  · intro h
    by_contra hc
    push_neg at hc
    rcases hc with ⟨v, hv, hvne⟩
    have hpos : finitePositions s ≠ [] := finitePositionsFrom_ne_nil s 0 ⟨v, hv, hvne⟩
    have hvals : finiteValues s ≠ [] := by
      intro hnil
      have hall := List.filterMap_eq_nil_iff.mp hnil
      exact hvne (hall v hv)
    obtain ⟨n, hn⟩ : ∃ n, (finitePositions s).getLast? = some n := by
      cases hl : (finitePositions s).getLast? with
      | none => exact absurd (List.getLast?_eq_none_iff.mp hl) hpos
      | some a => exact ⟨a, rfl⟩
    obtain ⟨y0, hy0⟩ : ∃ y0, (finiteValues s).head? = some y0 := by
      cases hl : (finiteValues s).head? with
      | none => exact absurd (List.head?_eq_none_iff.mp hl) hvals
      | some a => exact ⟨a, rfl⟩
    obtain ⟨yn, hyn⟩ : ∃ yn, (finiteValues s).getLast? = some yn := by
      cases hl : (finiteValues s).getLast? with
      | none => exact absurd (List.getLast?_eq_none_iff.mp hl) hvals
      | some a => exact ⟨a, rfl⟩
    unfold calculate_growth_rate at h
    rw [hn, hy0, hyn] at h
    by_cases h0 : 0 < n <;> simp [h0] at h
  · intro h
    have h1 : finitePositions s = [] := finitePositionsFrom_eq_nil s 0 h
    unfold calculate_growth_rate
    rw [h1]
    rfl

/-- Witness for C2 at a concrete input: the all-null series yields the null
growth rate. -/
theorem growth_rate_null_iff_no_finite_witness :
    calculate_growth_rate [none, none] = GrowthResult.nan :=
  (growth_rate_null_iff_no_finite [none, none]).mpr (by simp)

/-- Claim C2, counterexample. A group whose series is `[null, 100]` has one
finite observation (fewer than 2), yet `summarize` emits it with a non-null
GROWTH_RATE — the rate data `(100, 100, 1)`, whose value is
`(100/100) ** (1/1) - 1 = 0` — refuting "fewer than 2 finite observations
implies a null growth rate". -/
theorem growth_single_point_not_null_cex :
    summarize [LongRow.mk "A" "X" 2000 none, LongRow.mk "A" "X" 2001 (some 100)] =
        some [SummaryRow.mk "A" "X" 2001 100 (some 100) (some (100, 100, 1))] ∧
      (some ((100 : ℚ), (100 : ℚ), (1 : ℕ)) ≠ (none : Option (ℚ × ℚ × ℕ))) := by
  constructor
  · simp only [summarize, groupKeys, insertKey, summarizeKeys, summarizeGroup,
      rowKey, get_latest_value, seriesMean, calculate_growth_rate,
      finitePositions, finitePositionsFrom, finiteValues, List.foldl,
      List.filter, List.filterMap, List.map, id]
    norm_num
  · simp

/-- Claim C3. For a group with at least two finite VALUEs the code returns
exactly `(y_last / y_first) ** (1 / n) - 1` where `y_first`/`y_last` are the
first/last finite values and `n` is the re-indexed **position** of the last
finite value (not the count of finite values); `n ≥ 1` so the assertion
passes. In particular the series `[100, null, 121]` has `n = 2` and growth
rate `(121/100) ** (1/2) - 1 = 1/10`. (`**` is read as `Real.rpow`; they
agree on the nonnegative bases the claim exercises.) -/
theorem growth_rate_formula (s : List (Option ℚ)) (y0 yn : ℚ) (n : ℕ)
    (hy0 : (finiteValues s).head? = some y0)
    (hyn : (finiteValues s).getLast? = some yn)
    (hn : (finitePositions s).getLast? = some n)
    (hc : 2 ≤ (finiteValues s).length) :
    (calculate_growth_rate s = GrowthResult.rate y0 yn n ∧ 1 ≤ n ∧
        (calculate_growth_rate s).value =
          some (((yn : ℝ) / (y0 : ℝ)) ^ (((n : ℕ) : ℝ))⁻¹ - 1)) ∧
      (calculate_growth_rate [some 100, none, some 121] =
          GrowthResult.rate 100 121 2 ∧
        (calculate_growth_rate [some 100, none, some 121]).value =
          some ((1 : ℝ) / 10)) := by
  have hlen : 2 ≤ (finitePositions s).length := by
    rw [finitePositions_length s]; exact hc
  have hpos : finitePositions s ≠ [] := by
    intro hnil
    rw [hnil] at hlen
    simp at hlen
  have hge : 0 + (finitePositions s).length ≤ n + 1 :=
    finitePositionsFrom_getLast_ge s 0 hpos n hn
  have h1n : 1 ≤ n := by omega
  have hrate : calculate_growth_rate s = GrowthResult.rate y0 yn n := by
    unfold calculate_growth_rate
    rw [hn, hy0, hyn]
    show (if 0 < n then GrowthResult.rate y0 yn n else GrowthResult.assertFail) =
      GrowthResult.rate y0 yn n
    rw [if_pos (by omega)]
  have hconc : calculate_growth_rate [some 100, none, some 121] =
      GrowthResult.rate 100 121 2 := by decide
  refine ⟨⟨hrate, h1n, ?_⟩, hconc, ?_⟩
  · rw [hrate, GrowthResult.value]
  · rw [hconc, GrowthResult.value]
    have hbase : ((121 : ℚ) : ℝ) / ((100 : ℚ) : ℝ) = (11 / 10 : ℝ) ^ (2 : ℕ) := by
      norm_num
    rw [hbase, Real.pow_rpow_inv_natCast (by norm_num) (by norm_num)]
    norm_num

/-- Witness for C3 at the concrete series `[100, null, 121]`. -/
theorem growth_rate_formula_witness :
    calculate_growth_rate [some 100, none, some 121] =
        GrowthResult.rate 100 121 2 ∧
      1 ≤ 2 ∧
      (calculate_growth_rate [some 100, none, some 121]).value =
        some ((((121 : ℚ) : ℝ) / ((100 : ℚ) : ℝ)) ^ (((2 : ℕ) : ℝ))⁻¹ - 1) :=
  (growth_rate_formula [some 100, none, some 121] 100 121 2
    (by decide) (by decide) (by decide) (by decide)).1

/-- Claim C4. A group whose only finite observation sits at re-indexed
position 0 makes `calculate_growth_rate` hit `assert n > 0`: the
`AssertionError` aborts the pipeline, and in particular the function does
not return the null (NaN) growth rate. -/
theorem growth_assert_on_origin_single_point (s : List (Option ℚ)) (v : ℚ)
    (h0 : s.head? = some (some v)) (h1 : ∀ w ∈ s.tail, w = none) :
    calculate_growth_rate s = GrowthResult.assertFail ∧
      calculate_growth_rate s ≠ GrowthResult.nan := by
  cases s with
  | nil => simp at h0
  | cons a t =>
    have ha : a = some v := by simpa using h0
    subst ha
    have ht : ∀ w ∈ t, w = none := by simpa using h1
    have hfp : finitePositionsFrom t 1 = [] := finitePositionsFrom_eq_nil t 1 ht
    have hfv : t.filterMap id = [] :=
      List.filterMap_eq_nil_iff.mpr (fun w hw => ht w hw)
    have hpos : finitePositions (some v :: t) = [0] := by
      show finitePositionsFrom (some v :: t) 0 = [0]
      simp [finitePositionsFrom, hfp]
    have hvals : finiteValues (some v :: t) = [v] := by
      show (some v :: t).filterMap id = [v]
      simp [List.filterMap_cons, hfv]
    have hres : calculate_growth_rate (some v :: t) = GrowthResult.assertFail := by
      unfold calculate_growth_rate
      rw [hpos, hvals]
      rfl
    exact ⟨hres, by rw [hres]; simp⟩

/-- Witness for C4 at the concrete series `[5, null]`. -/
theorem growth_assert_on_origin_single_point_witness :
    calculate_growth_rate [some 5, none] = GrowthResult.assertFail ∧
      calculate_growth_rate [some 5, none] ≠ GrowthResult.nan :=
  growth_assert_on_origin_single_point [some 5, none] 5 rfl (by simp)

/-! ## Generic list bridging lemmas -/

theorem getD_eq_cell (s : List (Option ℚ)) (n m : ℕ) :
    (s.drop n).getD m none = s.getD (n + m) none := by
  rw [List.getD_eq_getElem?_getD, List.getD_eq_getElem?_getD, List.getElem?_drop]

theorem getD_append_cons {α : Type} (l1 l2 : List α) (a d : α) :
    (l1 ++ a :: l2).getD l1.length d = a := by
  rw [List.getD_eq_getElem?_getD, List.getElem?_append_right (Nat.le_refl _)]
  simp

theorem takeWhile_eq_self_of {α : Type} (p : α → Bool) (l : List α)
    (h : ∀ c ∈ l, p c = true) : l.takeWhile p = l := by
  induction l with
  | nil => rfl
  | cons a t ih =>
    rw [List.takeWhile_cons, h a (by simp)]
    simp [ih (fun c hc => h c (by simp [hc]))]

theorem map_eq_self_of {α : Type} (f : α → α) (l : List α)
    (h : ∀ c ∈ l, f c = c) : l.map f = l := by
  induction l with
  | nil => rfl
  | cons a t ih => simp [h a (by simp), ih (fun c hc => h c (by simp [hc]))]

/-! ## Interpolation lemmas -/

theorem interpSeries_getD (s : List (Option ℚ)) (i : ℕ) (h : i < s.length) :
    (interpSeries s).getD i none = interpAt s i := by
  unfold interpSeries
  rw [List.getD_eq_getElem?_getD, List.getElem?_map, List.getElem?_range h]
  rfl

theorem interpAt_of_some (s : List (Option ℚ)) (i : ℕ) (v : ℚ)
    (h : s.getD i none = some v) : interpAt s i = some v := by
  unfold interpAt
  rw [h]

theorem prevFinite_eq_none (s : List (Option ℚ)) :
    ∀ i, (∀ j, j < i → s.getD j none = none) → prevFinite s i = none := by
  intro i
  induction i with
  | zero => intro _; rfl
  | succ j ih =>
    intro h
    unfold prevFinite
    rw [h j (by omega)]
    exact ih (fun j2 hj2 => h j2 (by omega))

theorem prevFinite_eq_some (s : List (Option ℚ)) (p : ℕ) (vp : ℚ)
    (hp : s.getD p none = some vp) :
    ∀ i, p < i → (∀ j, p < j → j < i → s.getD j none = none) →
      prevFinite s i = some (p, vp) := by
  intro i
  induction i with
  | zero => intro h; omega
  | succ j ih =>
    intro hpi hmid
    by_cases hj : j = p
    · subst hj
      unfold prevFinite
      rw [hp]
    · have hjn : s.getD j none = none := hmid j (by omega) (by omega)
      unfold prevFinite
      rw [hjn]
      exact ih (by omega) (fun j2 h1 h2 => hmid j2 h1 (by omega))

theorem nextFiniteAux_eq_none (l : List (Option ℚ)) :
    ∀ k, (∀ w ∈ l, w = none) → nextFiniteAux l k = none := by
  induction l with
  | nil => intro k _; rfl
  | cons a t ih =>
    intro k h
    cases a with
    | none =>
      show nextFiniteAux t (k + 1) = none
      exact ih (k + 1) (fun w hw => h w (by simp [hw]))
    | some v => exact absurd (h (some v) (by simp)) (by simp)

theorem nextFiniteAux_eq_some (l : List (Option ℚ)) :
    ∀ m k v, l.getD m none = some v → (∀ j, j < m → l.getD j none = none) →
      nextFiniteAux l k = some (k + m, v) := by
  induction l with
  | nil =>
    intro m k v hm _
    rw [List.getD_eq_getElem?_getD] at hm
    simp at hm
  | cons a t ih =>
    intro m k v hm hj
    cases a with
    | some w =>
      have hm0 : m = 0 := by
        by_contra hne
        have h0 := hj 0 (by omega)
        simp [List.getD_cons_zero] at h0
      subst hm0
      have hwv : w = v := by simpa [List.getD_cons_zero] using hm
      subst hwv
      show some (k, w) = some (k + 0, w)
      simp
    | none =>
      have hm0 : m ≠ 0 := by
        intro h0
        subst h0
        simp [List.getD_cons_zero] at hm
      obtain ⟨m2, rfl⟩ : ∃ m2, m = m2 + 1 := ⟨m - 1, by omega⟩
      show nextFiniteAux t (k + 1) = some (k + (m2 + 1), v)
      have hres := ih m2 (k + 1) v (by simpa [List.getD_cons_succ] using hm)
        (fun j hj2 => by simpa [List.getD_cons_succ] using hj (j + 1) (by omega))
      rw [hres, show k + 1 + m2 = k + (m2 + 1) by omega]

theorem nextFinite_eq_none (s : List (Option ℚ)) (i : ℕ)
    (h : ∀ j, i < j → s.getD j none = none) : nextFinite s i = none := by
  unfold nextFinite
  apply nextFiniteAux_eq_none
  intro w hw
  rcases List.mem_iff_getElem?.mp hw with ⟨m, hm⟩
  rw [List.getElem?_drop] at hm
  have h2 := h (i + 1 + m) (by omega)
  rw [List.getD_eq_getElem?_getD, hm] at h2
  simpa using h2

theorem nextFinite_eq_some (s : List (Option ℚ)) (i q : ℕ) (vq : ℚ)
    (hiq : i < q) (hq : s.getD q none = some vq)
    (hmid : ∀ j, i < j → j < q → s.getD j none = none) :
    nextFinite s i = some (q, vq) := by
  unfold nextFinite
  obtain ⟨m, rfl⟩ : ∃ m, q = (i + 1) + m := ⟨q - (i + 1), by omega⟩
  exact nextFiniteAux_eq_some (s.drop (i + 1)) m (i + 1) vq
    (by rw [getD_eq_cell]; exact hq)
    (fun j hj => by rw [getD_eq_cell]; exact hmid (i + 1 + j) (by omega) (by omega))

theorem interpolate_values_getElem? (t : List LongRow) (i : ℕ) (r : LongRow)
    (h : t[i]? = some r) :
    (interpolate_values t)[i]? = some
      { r with value :=
          ((interpSeries ((t.filter (fun r2 => rowKey r2 = rowKey r)).map LongRow.value)).getD
            (((t.take i).filter (fun r2 => rowKey r2 = rowKey r)).length) none) } := by
  unfold interpolate_values
  rw [List.getElem?_map, List.getElem?_enum, h]
  rfl

theorem group_position_value (t : List LongRow) (i : ℕ) (r : LongRow)
    (h : t[i]? = some r) :
    ((t.filter (fun r2 => rowKey r2 = rowKey r)).map LongRow.value).getD
        (((t.take i).filter (fun r2 => rowKey r2 = rowKey r)).length) none = r.value ∧
      ((t.take i).filter (fun r2 => rowKey r2 = rowKey r)).length <
        ((t.filter (fun r2 => rowKey r2 = rowKey r)).map LongRow.value).length := by
  have hik : i < t.length := by
    by_contra hc
    rw [List.getElem?_eq_none (by omega)] at h
    cases h
  have hget : t[i] = r := by
    have := List.getElem?_eq_getElem hik
    rw [h] at this
    exact (Option.some_inj.mp this).symm
  have hsplit : t = t.take i ++ r :: t.drop (i + 1) := by
    conv_lhs => rw [← List.take_append_drop i t]
    congr 1
    rw [List.drop_eq_getElem_cons hik, hget]
  have hteq : t.filter (fun r2 => rowKey r2 = rowKey r) =
      (t.take i).filter (fun r2 => rowKey r2 = rowKey r) ++
        r :: (t.drop (i + 1)).filter (fun r2 => rowKey r2 = rowKey r) := by
    conv_lhs => rw [hsplit]
    rw [List.filter_append, List.filter_cons]
    simp
  constructor
  · rw [hteq, List.map_append, List.map_cons,
      show ((t.take i).filter (fun r2 => rowKey r2 = rowKey r)).length =
        (((t.take i).filter (fun r2 => rowKey r2 = rowKey r)).map LongRow.value).length
        from (List.length_map _ _).symm]
    exact getD_append_cons _ _ _ _
  · rw [hteq]
    simp

/-! ## Claim C1: interpolation fill policy -/

/-- Claim C1, counterexample. A trailing null does **not** remain null:
pandas `interpolate(method="linear")` pads forward past the last finite
observation, so the group `[1, null]` becomes `[1, 1]` — the trailing null
is filled with the last finite value, refuting "leading and trailing nulls
remain null / extrapolation is never performed". -/
theorem interp_trailing_filled_cex :
    interpolate_values
        [LongRow.mk "A" "X" 2000 (some 1), LongRow.mk "A" "X" 2001 none] =
      [LongRow.mk "A" "X" 2000 (some 1), LongRow.mk "A" "X" 2001 (some 1)] := by
  decide

/-- Claim C1, amended. Within each `(COUNTRY_NAME, INDICATOR_NAME)` group:
a VALUE that was already non-null is never changed (stated on the whole
table); a null with no finite observation before it (leading) stays null;
a null strictly between two finite observations is filled by linear
interpolation between its nearest finite neighbours; but a null **after**
the last finite observation (trailing) is filled with that last finite
value — pandas pads forward, it does not leave trailing nulls. -/
theorem interp_fill_policy :
    (∀ (t : List LongRow) (i : ℕ) (r : LongRow),
        t[i]? = some r → r.value ≠ none → (interpolate_values t)[i]? = some r) ∧
      (∀ (s : List (Option ℚ)) (i : ℕ), i < s.length → s.getD i none = none →
        (∀ j, j < i → s.getD j none = none) →
        (interpSeries s).getD i none = none) ∧
      (∀ (s : List (Option ℚ)) (i p : ℕ) (vp : ℚ), i < s.length →
        s.getD i none = none → p < i → s.getD p none = some vp →
        (∀ j, p < j → j < i → s.getD j none = none) →
        (∀ j, i < j → s.getD j none = none) →
        (interpSeries s).getD i none = some vp) ∧
      (∀ (s : List (Option ℚ)) (i p q : ℕ) (vp vq : ℚ), q < s.length →
        s.getD i none = none → p < i → i < q →
        s.getD p none = some vp → s.getD q none = some vq →
        (∀ j, p < j → j < q → j ≠ i → s.getD j none = none) →
        (interpSeries s).getD i none =
          some (vp + (vq - vp) * (((i : ℚ) - (p : ℚ)) / ((q : ℚ) - (p : ℚ))))) := by
  refine ⟨?_, ?_, ?_, ?_⟩
  · intro t i r h hval
    obtain ⟨v, hv⟩ : ∃ v, r.value = some v := by
      cases hrv : r.value with
      | none => exact absurd hrv hval
      | some v => exact ⟨v, rfl⟩
    have hgp := group_position_value t i r h
    have hlen : (((t.take i).filter (fun r2 => rowKey r2 = rowKey r)).length) <
        ((t.filter (fun r2 => rowKey r2 = rowKey r)).map LongRow.value).length := hgp.2
    have hser : (interpSeries ((t.filter (fun r2 => rowKey r2 = rowKey r)).map LongRow.value)).getD
        (((t.take i).filter (fun r2 => rowKey r2 = rowKey r)).length) none = r.value := by
      rw [interpSeries_getD _ _ hlen, interpAt_of_some _ _ v (by rw [hgp.1, hv]), hv]
    rw [interpolate_values_getElem? t i r h, hser]
  · intro s i hi h0 hlead
    rw [interpSeries_getD s i hi]
    unfold interpAt
    rw [h0, prevFinite_eq_none s i hlead]
  · intro s i p vp hi h0 hpi hp hmid hafter
    rw [interpSeries_getD s i hi]
    unfold interpAt
    rw [h0, prevFinite_eq_some s p vp hp i hpi hmid, nextFinite_eq_none s i hafter]
  · intro s i p q vp vq hq0 h0 hpi hiq hp hq hmid
    rw [interpSeries_getD s i (by omega)]
    unfold interpAt
    rw [h0, prevFinite_eq_some s p vp hp i hpi
        (fun j h1 h2 => hmid j h1 (by omega) (by omega)),
      nextFinite_eq_some s i q vq hiq hq
        (fun j h1 h2 => hmid j (by omega) h2 (by omega))]

/-- Witness for C1 at concrete inputs: in `[1, null, 3]` the interior null
at position 1 is filled with the linear midpoint `1 + (3 - 1) * ((1 - 0) /
(2 - 0)) = 2`, and in `[7, null, null]` the leading-null rule and non-null
preservation are exercised on the table `[(A, X, 7), (A, X, null)]`. -/
theorem interp_fill_policy_witness :
    (interpolate_values [LongRow.mk "A" "X" 2000 (some 7)])[0]? =
        some (LongRow.mk "A" "X" 2000 (some 7)) ∧
      (interpSeries [none, some 5]).getD 0 none = none ∧
      (interpSeries [some 1, none, some 3]).getD 1 none =
        some (1 + (3 - 1) * ((((1 : ℕ) : ℚ) - ((0 : ℕ) : ℚ)) / (((2 : ℕ) : ℚ) - ((0 : ℕ) : ℚ)))) :=
  ⟨interp_fill_policy.1 [LongRow.mk "A" "X" 2000 (some 7)] 0
      (LongRow.mk "A" "X" 2000 (some 7)) rfl (by simp),
    interp_fill_policy.2.1 [none, some 5] 0 (by simp) rfl (fun j hj => by omega),
    interp_fill_policy.2.2.2 [some 1, none, some 3] 1 0 2 1 3 (by simp) rfl
      (by omega) (by omega) rfl rfl (fun j h1 h2 h3 => by omega)⟩

/-! ## Claim C5: groups with no finite observation crash `summarize` -/

theorem mem_insertKey_self (ks : List (String × String)) (k : String × String) :
    k ∈ insertKey ks k := by
  unfold insertKey
  split
  · assumption
  · simp

theorem mem_insertKey_of_mem (ks : List (String × String)) (k k2 : String × String)
    (h : k2 ∈ ks) : k2 ∈ insertKey ks k := by
  unfold insertKey
  split
  · exact h
  · simp [h]

theorem mem_foldl_insertKey (t : List LongRow) :
    ∀ (acc : List (String × String)) (k : String × String), k ∈ acc →
      k ∈ t.foldl (fun ks r => insertKey ks (rowKey r)) acc := by
  induction t with
  | nil => intro acc k h; simpa using h
  | cons a t2 ih =>
    intro acc k h
    exact ih _ k (mem_insertKey_of_mem acc (rowKey a) k h)

theorem rowKey_mem_groupKeys (t : List LongRow) (r : LongRow) (hr : r ∈ t) :
    rowKey r ∈ groupKeys t := by
  unfold groupKeys
  induction t with
  | nil => simp at hr
  | cons a t2 ih =>
    rcases List.mem_cons.mp hr with h1 | h1
    · subst h1
      exact mem_foldl_insertKey t2 _ _ (mem_insertKey_self [] (rowKey r))
    · show rowKey r ∈ List.foldl (fun ks r2 => insertKey ks (rowKey r2)) (insertKey [] (rowKey a)) t2
      have aux : ∀ (t3 : List LongRow) (acc : List (String × String)) (r2 : LongRow),
          r2 ∈ t3 → rowKey r2 ∈ t3.foldl (fun ks r3 => insertKey ks (rowKey r3)) acc := by
        intro t3
        induction t3 with
        | nil => intro acc r2 h2; simp at h2
        | cons b t4 ih2 =>
          intro acc r2 h2
          rcases List.mem_cons.mp h2 with h3 | h3
          · subst h3
            exact mem_foldl_insertKey t4 _ _ (mem_insertKey_self acc (rowKey r2))
          · exact ih2 _ r2 h3
      exact aux t2 _ r h1

theorem summarizeGroup_none_of_all_null (c ind : String) (years : List Int)
    (vals : List (Option ℚ)) (h : ∀ v ∈ vals, v = none) :
    summarizeGroup c ind years vals = none := by
  have hfv : vals.filterMap id = [] :=
    List.filterMap_eq_nil_iff.mpr (fun w hw => h w hw)
  have hcv : get_latest_value vals = none := by
    unfold get_latest_value
    rw [hfv]
    rfl
  unfold summarizeGroup
  cases get_latest_value (years.map some) with
  | none => rfl
  | some cy => simp [hcv]

theorem summarizeKeys_none (t : List LongRow) (k : String × String)
    (hgrp : ∀ r2 ∈ t, rowKey r2 = k → r2.value = none) :
    ∀ ks, k ∈ ks → summarizeKeys t ks = none := by
  intro ks
  induction ks with
  | nil => intro h; simp at h
  | cons a ks2 ih =>
    intro hk
    by_cases hak : a = k
    · subst hak
      have hnone : summarizeGroup a.1 a.2
          ((t.filter (fun r => rowKey r = a)).map LongRow.year)
          ((t.filter (fun r => rowKey r = a)).map LongRow.value) = none := by
        apply summarizeGroup_none_of_all_null
        intro v hv
        rcases List.mem_map.mp hv with ⟨r2, hr2, hval⟩
        rcases List.mem_filter.mp hr2 with ⟨hmem, hkey⟩
        rw [← hval]
        exact hgrp r2 hmem (by simpa using hkey)
      simp only [summarizeKeys]
      rw [hnone]
    · have hk2 : k ∈ ks2 := by
        rcases List.mem_cons.mp hk with h1 | h1
        · exact absurd h1.symm hak
        · exact h1
      have ihk := ih hk2
      simp only [summarizeKeys]
      rw [ihk]
      cases summarizeGroup a.1 a.2 ((t.filter (fun r => rowKey r = a)).map LongRow.year)
        ((t.filter (fun r => rowKey r = a)).map LongRow.value) <;> rfl

/-- Claim C5, counterexample. On a one-row table whose single group has no
non-null VALUE, `summarize` raises (the `IndexError` of
`series[series.notnull()].values[~0]` on an empty selection, modelled by
`none`) — the group is **not** emitted with null CURRENT_YEAR/CURRENT_VALUE. -/
theorem summarize_all_null_crash_cex :
    summarize [LongRow.mk "A" "X" 2000 none] = none := by
  decide

/-- Claim C5, amended. A table containing a `(COUNTRY_NAME, INDICATOR_NAME)`
group in which no row has a non-null VALUE makes `summarize` raise
(`IndexError` while aggregating that group): the pipeline crashes and no
summary table is produced, instead of the group being emitted with null
CURRENT_YEAR and CURRENT_VALUE. -/
theorem summarize_all_null_group_crashes (t : List LongRow) (r : LongRow)
    (hr : r ∈ t) (hall : ∀ r2 ∈ t, rowKey r2 = rowKey r → r2.value = none) :
    summarize t = none := by
  unfold summarize
  exact summarizeKeys_none t (rowKey r) hall (groupKeys t) (rowKey_mem_groupKeys t r hr)

/-- Witness for C5 at a concrete one-group all-null table. -/
theorem summarize_all_null_group_crashes_witness :
    summarize [LongRow.mk "B" "Y" 1999 none] = none :=
  summarize_all_null_group_crashes [LongRow.mk "B" "Y" 1999 none]
    (LongRow.mk "B" "Y" 1999 none) (by simp)
    (by intro r2 h2 _; rcases List.mem_singleton.mp h2 with rfl; rfl)

/-! ## Claim C6: stage purity -/

/-- Claim C6, counterexample. `interpolate_values` mutates the caller's
frame: after the call on the two-row table whose second VALUE is null, the
caller's table (`interpolate_values_inputAfter`, i.e. the frame it passed
in, which received the in-place `df["VALUE"] = ...` assignment) no longer
equals the table it handed over. -/
theorem interpolate_values_mutates_input_cex :
    interpolate_values_inputAfter
        [LongRow.mk "B" "Y" 2000 (some 2), LongRow.mk "B" "Y" 2001 none] ≠
      [LongRow.mk "B" "Y" 2000 (some 2), LongRow.mk "B" "Y" 2001 none] := by
  decide

/-- Claim C6, amended. Every stage except `interpolate_values` leaves the
table it was handed unchanged (its pandas calls all allocate new frames);
`interpolate_values` alone assigns the interpolated VALUE column into its
input in place, so after the call the caller's table equals the returned
(interpolated) table rather than the original input. -/
theorem stage_purity_except_interpolate :
    (∀ t : Table, format_columns_inputAfter t = t) ∧
      (∀ (t : Table) (years : ℕ), clean_data_inputAfter t years = t) ∧
      (∀ df corona : Table, keep_relevant_countries_inputAfter df corona = (df, corona)) ∧
      (∀ w : WideTable, reindex_by_country_indicator_inputAfter w = w) ∧
      (∀ t : List LongRow, summarize_inputAfter t = t) ∧
      (∀ t : List SummaryRow, pivot_by_indicator_inputAfter t = t) ∧
      (∀ rows : List (List (Option ℝ)), fill_missing_indicators_inputAfter rows = rows) ∧
      (∀ t : List LongRow, interpolate_values_inputAfter t = interpolate_values t) :=
  ⟨fun _ => rfl, fun _ _ => rfl, fun _ _ => rfl, fun _ => rfl,
    fun _ => rfl, fun _ => rfl, fun _ => rfl, fun _ => rfl⟩

/-! ## Claim C7: the schema normalizer is idempotent and touches no rows -/

theorem upperChar_eq_of_not_lower (c : Char) (h : ¬('a' ≤ c ∧ c ≤ 'z')) :
    upperChar c = c := by
  unfold upperChar
  rw [dif_neg h]

theorem upperChar_toNat_of_lower (c : Char) (h : 'a' ≤ c ∧ c ≤ 'z') :
    (upperChar c).toNat = c.toNat - 32 := by
  unfold upperChar
  rw [dif_pos h]
  rfl

theorem upperChar_not_lower (c : Char) : ¬('a' ≤ upperChar c ∧ upperChar c ≤ 'z') := by
  by_cases h : 'a' ≤ c ∧ c ≤ 'z'
  · intro hcon
    have h1 : 97 ≤ (upperChar c).toNat := hcon.1
    have h2 : (upperChar c).toNat = c.toNat - 32 := upperChar_toNat_of_lower c h
    have h3 : 97 ≤ c.toNat := h.1
    have h4 : c.toNat ≤ 122 := h.2
    omega
  · rw [upperChar_eq_of_not_lower c h]
    exact h

theorem upperChar_idem (c : Char) : upperChar (upperChar c) = upperChar c :=
  upperChar_eq_of_not_lower (upperChar c) (upperChar_not_lower c)

theorem upperChar_ne_slash (c : Char) (h : c ≠ '/') : upperChar c ≠ '/' := by
  by_cases hl : 'a' ≤ c ∧ c ≤ 'z'
  · intro heq
    have h1 : (upperChar c).toNat = c.toNat - 32 := upperChar_toNat_of_lower c hl
    have h2 : (upperChar c).toNat = 47 := by rw [heq]; decide
    have h3 : 97 ≤ c.toNat := hl.1
    omega
  · rw [upperChar_eq_of_not_lower c hl]
    exact h

theorem upperChar_ne_space (c : Char) (h : c ≠ ' ') : upperChar c ≠ ' ' := by
  by_cases hl : 'a' ≤ c ∧ c ≤ 'z'
  · intro heq
    have h1 : (upperChar c).toNat = c.toNat - 32 := upperChar_toNat_of_lower c hl
    have h2 : (upperChar c).toNat = 32 := by rw [heq]; decide
    have h3 : 97 ≤ c.toNat := hl.1
    omega
  · rw [upperChar_eq_of_not_lower c hl]
    exact h

theorem usChar_ne_slash (c : Char) (h : c ≠ '/') : usChar c ≠ '/' := by
  unfold usChar
  split
  · decide
  · exact h

theorem usChar_ne_space (c : Char) : usChar c ≠ ' ' := by
  unfold usChar
  split
  · decide
  · rename_i h
    exact h

theorem usChar_fix_of_ne_space (c : Char) (h : c ≠ ' ') : usChar c = c := by
  unfold usChar
  rw [if_neg h]

theorem header_pipeline_idem (l : List Char) :
    (((((((l.takeWhile (fun c => c ≠ '/')).map usChar).map upperChar).takeWhile
        (fun c => c ≠ '/')).map usChar).map upperChar)) =
      ((l.takeWhile (fun c => c ≠ '/')).map usChar).map upperChar := by
  set L := ((l.takeWhile (fun c => c ≠ '/')).map usChar).map upperChar with hL
  have hmem : ∀ c ∈ L, ∃ c0, c0 ≠ '/' ∧ c = upperChar (usChar c0) := by
    intro c hc
    rw [hL] at hc
    rcases List.mem_map.mp hc with ⟨c1, hc1, hup⟩
    rcases List.mem_map.mp hc1 with ⟨c0, hc0, hus⟩
    have h0 : c0 ≠ '/' := by simpa using List.mem_takeWhile_imp hc0
    exact ⟨c0, h0, by rw [← hup, ← hus]⟩
  have h1 : L.takeWhile (fun c => c ≠ '/') = L := by
    apply takeWhile_eq_self_of
    intro c hc
    rcases hmem c hc with ⟨c0, h0, rfl⟩
    simpa using upperChar_ne_slash (usChar c0) (usChar_ne_slash c0 h0)
  have h2 : L.map usChar = L := by
    apply map_eq_self_of
    intro c hc
    rcases hmem c hc with ⟨c0, _, rfl⟩
    exact usChar_fix_of_ne_space _ (upperChar_ne_space _ (usChar_ne_space c0))
  have h3 : L.map upperChar = L := by
    conv_lhs => rw [hL]
    rw [List.map_map]
    calc (((l.takeWhile (fun c => c ≠ '/')).map usChar).map (upperChar ∘ upperChar))
        = ((l.takeWhile (fun c => c ≠ '/')).map usChar).map upperChar :=
          List.map_congr_left (fun a _ => upperChar_idem a)
      _ = L := hL.symm
  rw [h1, h2, h3]

theorem headerString_idem (s : String) :
    upperString (underscoreSpaces (slashTrunc
        (upperString (underscoreSpaces (slashTrunc s))))) =
      upperString (underscoreSpaces (slashTrunc s)) := by
  unfold upperString underscoreSpaces slashTrunc
  congr 1
  exact header_pipeline_idem s.data

/-- Claim C7. The schema normalizer is idempotent — `format_columns
(format_columns df) = format_columns df` — and it touches only the column
headers: the rows (hence their order and contents) of the result are
exactly the rows of the input. -/
theorem format_columns_idempotent_pure (t : Table) :
    format_columns (format_columns t) = format_columns t ∧
      (format_columns t).rows = t.rows := by
  constructor
  · show Table.mk
        ((((((t.cols.map slashTrunc).map underscoreSpaces).map upperString).map
          slashTrunc).map underscoreSpaces).map upperString) t.rows =
      Table.mk (((t.cols.map slashTrunc).map underscoreSpaces).map upperString) t.rows
    congr 1
    simp only [List.map_map]
    apply List.map_congr_left
    intro s _
    simp only [Function.comp_apply]
    exact headerString_idem s
  · rfl

/-! ## Claim C8: the reshaper row-count law -/

theorem mapM_option_length {α β : Type} (f : α → Option β) :
    ∀ (l : List α) (ys : List β), l.mapM f = some ys → ys.length = l.length := by
  intro l
  induction l with
  | nil =>
    intro ys h
    simp only [List.mapM_nil] at h
    cases h
    rfl
  | cons a t2 ih =>
    intro ys h
    rw [List.mapM_cons] at h
    cases hfa : f a with
    | none => rw [hfa] at h; simp at h
    | some b =>
      rw [hfa] at h
      cases hmt : t2.mapM f with
      | none => rw [hmt] at h; simp at h
      | some bs =>
        rw [hmt] at h
        simp at h
        rw [← h]
        simp [ih bs hmt]

/-- Claim C8. When the year labels parse, the long form produced by
`reindex_by_country_indicator` has exactly `input rows × K` rows, `K` the
number of year columns (`melt` emits one row per (input row, year column)
pair, and the `YEAR`-parsing `assign` keeps the row count). -/
theorem reindex_row_count_law (w : WideTable) (l : List LongRow)
    (h : reindex_by_country_indicator w = Except.ok l) :
    l.length = w.rows.length * w.yearCols.length := by
  unfold reindex_by_country_indicator at h
  cases hm : w.yearCols.mapM parseYearLabel with
  | none => rw [hm] at h; cases h
  | some ys =>
    rw [hm] at h
    have hl : l = (ys.enum.map (fun p => w.rows.map (fun r =>
        LongRow.mk r.country r.indicator p.2 (r.values.getD p.1 none)))).flatten := by
      cases h
      rfl
    rw [hl, List.length_flatten, List.map_map]
    have hcongr : ys.enum.map (List.length ∘ fun p => w.rows.map (fun r =>
        LongRow.mk r.country r.indicator p.2 (r.values.getD p.1 none))) =
        ys.enum.map (fun _ => w.rows.length) := by
      apply List.map_congr_left
      intro p _
      simp
    rw [hcongr, List.map_const', List.sum_replicate, smul_eq_mul, List.enum_length,
      mapM_option_length parseYearLabel w.yearCols ys hm, Nat.mul_comm]

/-- Witness for C8 at a concrete one-row, two-year table. -/
theorem reindex_row_count_law_witness :
    ([LongRow.mk "A" "X" 2000 (some 1), LongRow.mk "A" "X" 2001 (some 2)] :
        List LongRow).length =
      (WideTable.mk ["2000", "2001"] [WideRow.mk "A" "X" [some 1, some 2]]).rows.length *
        (WideTable.mk ["2000", "2001"] [WideRow.mk "A" "X" [some 1, some 2]]).yearCols.length :=
  reindex_row_count_law (WideTable.mk ["2000", "2001"] [WideRow.mk "A" "X" [some 1, some 2]])
    [LongRow.mk "A" "X" 2000 (some 1), LongRow.mk "A" "X" 2001 (some 2)]
    (by
      unfold reindex_by_country_indicator
      rw [show ["2000", "2001"].mapM parseYearLabel = some [2000, 2001] by decide]
      rfl)

/-! ## Claim C9: missing drop-columns are fatal -/

/-- Claim C9. If any of the three metadata columns `clean_data` drops
(`INDICATOR_CODE`, `COUNTRY_CODE`, `UNNAMED:_63`) is absent from the input,
the stage fails with the `KeyError` of `df.drop` (whose default is
`errors="raise"`): the missing column is never silently skipped. -/
theorem clean_data_missing_column_fatal (t : Table) (years : ℕ)
    (h : "INDICATOR_CODE" ∉ t.cols ∨ "COUNTRY_CODE" ∉ t.cols ∨
      "UNNAMED:_63" ∉ t.cols) :
    clean_data t years = Except.error "KeyError" := by
  unfold clean_data
  rw [if_neg (by tauto)]

/-- Witness for C9 on the empty table. -/
theorem clean_data_missing_column_fatal_witness :
    clean_data (Table.mk [] []) 20 = Except.error "KeyError" :=
  clean_data_missing_column_fatal (Table.mk [] []) 20 (Or.inl (by simp))

/-! ## Claim C10: `fillna(df.mean())` leaves all-null columns null -/

/-- Claim C10. In `fill_missing_indicators` (`df.fillna(df.mean())`): a
column `j` that is null in every row stays null in every row (its mean does
not exist, so nothing is filled), while a column with at least one finite
cell ends up with no nulls at all — so only all-null columns can leave null
cells in the final analytical table. -/
theorem fillna_all_null_column_stays_null (rows : List (List (Option ℚ))) (i j : ℕ) :
    ((∀ r ∈ rows, r.getD j none = none) →
        ((fill_missing_indicators rows).getD i []).getD j none = none) ∧
      (∀ r, rows[i]? = some r → j < r.length →
        (∃ r0 ∈ rows, r0.getD j none ≠ none) →
        ((fill_missing_indicators rows).getD i []).getD j none ≠ none) := by
  have hrowD : ∀ r, rows[i]? = some r →
      (fill_missing_indicators rows).getD i [] = r.enum.map (fillCell rows) := by
    intro r hr
    unfold fill_missing_indicators
    rw [List.getD_eq_getElem?_getD, List.getElem?_map, hr]
    rfl
  have hcellD : ∀ (r : List (Option ℚ)), j < r.length →
      (r.enum.map (fillCell rows)).getD j none = fillCell rows (j, r.getD j none) := by
    intro r hj
    rw [List.getD_eq_getElem?_getD, List.getElem?_map, List.getElem?_enum,
      List.getElem?_eq_getElem hj]
    have hcell : r.getD j none = r[j] := by
      rw [List.getD_eq_getElem?_getD, List.getElem?_eq_getElem hj]
      rfl
    rw [hcell]
    rfl
  constructor
  · intro hall
    cases hi : rows[i]? with
    | none =>
      have hlen : rows.length ≤ i := by
        by_contra hc
        rw [List.getElem?_eq_getElem (by omega)] at hi
        cases hi
      have hnil : (fill_missing_indicators rows).getD i [] = [] := by
        rw [List.getD_eq_getElem?_getD, List.getElem?_eq_none
          (by simpa [fill_missing_indicators] using hlen)]
        rfl
      rw [hnil]
      rfl
    | some r =>
      rw [hrowD r hi]
      by_cases hj : j < r.length
      · rw [hcellD r hj]
        have hrm : r ∈ rows := List.getElem?_mem hi
        have hcell : r.getD j none = none := hall r hrm
        rw [hcell]
        have hfm : rows.filterMap (fun r2 => r2.getD j none) = [] := by
          apply List.filterMap_eq_nil_iff.mpr
          intro r2 hr2
          exact hall r2 hr2
        show colMean rows j = none
        unfold colMean
        rw [hfm]
      · have hlen2 : (r.enum.map (fillCell rows)).length ≤ j := by
          simpa [List.enum_length] using hj
        rw [List.getD_eq_getElem?_getD, List.getElem?_eq_none hlen2]
        rfl
  · intro r hr hj hex
    rw [hrowD r hr, hcellD r hj]
    cases hcell : r.getD j none with
    | some x => simp [fillCell]
    | none =>
      rcases hex with ⟨r0, hr0m, hr0⟩
      obtain ⟨v0, hv0⟩ : ∃ v0, r0.getD j none = some v0 := by
        cases hc : r0.getD j none with
        | none => exact absurd hc hr0
        | some v => exact ⟨v, rfl⟩
      have hmem2 : v0 ∈ rows.filterMap (fun r2 => r2.getD j none) :=
        List.mem_filterMap.mpr ⟨r0, hr0m, hv0⟩
      show colMean rows j ≠ none
      unfold colMean
      cases hfs : rows.filterMap (fun r2 => r2.getD j none) with
      | nil => rw [hfs] at hmem2; simp at hmem2
      | cons a fs2 => simp

/-- Witness for C10 at a concrete 2×2 pivoted table whose first column is
all-null (stays null) and whose second column has one finite cell (the
other cell gets filled). -/
theorem fillna_all_null_column_stays_null_witness :
    (((fill_missing_indicators ([[none, some 1], [none, none]] :
          List (List (Option ℚ)))).getD 1 []).getD 0 none = none) ∧
      ((fill_missing_indicators ([[none, some 1], [none, none]] :
          List (List (Option ℚ)))).getD 1 []).getD 1 none ≠ none :=
  ⟨(fillna_all_null_column_stays_null
        ([[none, some 1], [none, none]] : List (List (Option ℚ))) 1 0).1
      (by intro r hr; fin_cases hr <;> rfl),
    (fillna_all_null_column_stays_null
        ([[none, some 1], [none, none]] : List (List (Option ℚ))) 1 1).2
      [none, none] rfl (by decide) ⟨[none, some 1], by simp, by decide⟩⟩

end CovidPreprocess
